import Mathlib

/-!
Verification of the ClipIt detection pipeline (src/app.py).

This file gives a shallow embedding of the pure core of the program:
the timestamp codec (format_timestamp / parse_timestamp), the window
planner loop, the per-window recognition/grouping loop of analyze_audio,
the per-track range merging, the final result ordering, and the clip
route's timestamp validation.  Seconds are modelled as rationals
(Python floats used as exact arithmetic on the inputs of interest),
strings as Lean strings, Python dicts with fixed key sets as structures,
and the insertion-ordered detected_songs dict as an association list.
External effects (ffprobe, ffmpeg, the AudD network call) enter as
oracle parameters; exceptions are modelled with Option / Except.
-/

namespace ClipIt

attribute [local semireducible] Rat.add Rat.sub Rat.mul Rat.inv Rat.ofScientific

/-! ## Character-level string helpers

Python string primitives used by the codec, modelled on lists of
characters: str.strip(), str.split(sep), int(), float().  The numeric
conversions model Python int()/float() on their sign-and-digits
(resp. sign, digits and one decimal point) fragment, which covers every
string the program itself produces and every numeric literal form the
claims exercise.
-/

/-- Python str.strip(): drop whitespace from both ends. -/
def pyStrip (cs : List Char) : List Char :=
  ((cs.dropWhile Char.isWhitespace).reverse.dropWhile Char.isWhitespace).reverse

/-- Python str.split(sep) for a one-character separator: split on every
occurrence, keeping empty pieces. -/
def splitOnChar (sep : Char) : List Char → List (List Char)
  | [] => [[]]
  | c :: rest =>
    if c = sep then [] :: splitOnChar sep rest
    else
      match splitOnChar sep rest with
      | [] => [[c]]
      | g :: gs => (c :: g) :: gs

/-- Numeric value of a decimal digit character. -/
def digitVal (c : Char) : ℕ := c.toNat - 48

/-- Value of a digit string read most-significant first. -/
def digitsVal (cs : List Char) : ℕ :=
  cs.foldl (fun a c => 10 * a + digitVal c) 0

/-- Fractional value of the digit string after a decimal point. -/
def digitsFrac (cs : List Char) : ℚ :=
  cs.foldr (fun c a => ((digitVal c : ℚ) + a) / 10) 0

/-- Python int(text) on an optionally signed digit string; None models a
ValueError. -/
def pyInt? (cs : List Char) : Option ℤ :=
  match cs with
  | [] => none
  | c :: rest =>
    if c = '-' then
      if rest ≠ [] ∧ rest.all Char.isDigit then some (-(digitsVal rest : ℤ)) else none
    else if c = '+' then
      if rest ≠ [] ∧ rest.all Char.isDigit then some (digitsVal rest : ℤ) else none
    else if (c :: rest).all Char.isDigit then some (digitsVal (c :: rest) : ℤ)
    else none

/-- Unsigned part of Python float(text): digits with an optional decimal
point, at least one digit overall. -/
def pyFloatCore (cs : List Char) : Option ℚ :=
  match splitOnChar '.' cs with
  | [ip] =>
    if ip ≠ [] ∧ ip.all Char.isDigit then some (digitsVal ip : ℚ) else none
  | [ip, fp] =>
    if (ip ≠ [] ∨ fp ≠ []) ∧ ip.all Char.isDigit ∧ fp.all Char.isDigit then
      some ((digitsVal ip : ℚ) + digitsFrac fp)
    else none
  | _ => none

/-- Python float(text) on an optionally signed decimal literal; None
models a ValueError. -/
def pyFloat? (cs : List Char) : Option ℚ :=
  match cs with
  | [] => none
  | c :: rest =>
    if c = '-' then (pyFloatCore rest).map (fun q => -q)
    else if c = '+' then pyFloatCore rest
    else pyFloatCore (c :: rest)

/-! ## Timestamp codec (format_timestamp / parse_timestamp) -/

/-- Python f-string 02d formatting of an integer: zero-padded to width
two. -/
def intPad2 (n : ℤ) : String :=
  if 0 ≤ n ∧ n < 10 then "0" ++ toString n else toString n

/-- Same padding on a natural number. -/
def natPad2 (n : ℕ) : String :=
  if n < 10 then "0" ++ toString n else toString n

/-- format_timestamp of src/app.py: seconds to MM:SS, or HH:MM:SS once
there is a positive hour count.  Python // and % on floats are floor
division and the nonnegative remainder, and int() truncates the already
nonnegative remainders, so every component is an integer floor. -/
def format_timestamp (seconds : ℚ) : String :=
  let hours : ℤ := ⌊seconds / 3600⌋
  let minutes : ℤ := ⌊(seconds - 3600 * (⌊seconds / 3600⌋ : ℚ)) / 60⌋
  let secs : ℤ := ⌊seconds - 60 * (⌊seconds / 60⌋ : ℚ)⌋
  if 0 < hours then
    intPad2 hours ++ ":" ++ intPad2 minutes ++ ":" ++ intPad2 secs
  else
    intPad2 minutes ++ ":" ++ intPad2 secs

/-- Restatement of format_timestamp on a natural number of seconds using
truncated natural arithmetic; proved equal to format_timestamp below. -/
def formatNat (s : ℕ) : String :=
  if 0 < s / 3600 then
    natPad2 (s / 3600) ++ ":" ++ natPad2 (s % 3600 / 60) ++ ":" ++ natPad2 (s % 60)
  else
    natPad2 (s % 3600 / 60) ++ ":" ++ natPad2 (s % 60)

/-- parse_timestamp of src/app.py: strip, split on the colon,
two parts give minutes*60 + seconds, three parts give
hours*3600 + minutes*60 + seconds, anything else (or a failing int() or
float()) is a ValueError, modelled as None. -/
def parse_timestamp (ts : String) : Option ℚ :=
  match splitOnChar ':' (pyStrip ts.data) with
  | [minutes, seconds] => do
    let m ← pyInt? minutes
    let s ← pyFloat? seconds
    pure ((m : ℚ) * 60 + s)
  | [hours, minutes, seconds] => do
    let h ← pyInt? hours
    let m ← pyInt? minutes
    let s ← pyFloat? seconds
    pure ((h : ℚ) * 3600 + (m : ℚ) * 60 + s)
  | _ => none

/-! ## Configuration constants of src/app.py -/

/-- Seconds per analysis chunk. -/
def CHUNK_DURATION : ℚ := 12

/-- Seconds of overlap between chunks. -/
def OVERLAP : ℚ := 4

/-- Seconds of gap tolerance when merging same-song detections. -/
def MERGE_GAP : ℚ := 30

/-! ## Window planner

The chunk-calculation loop of analyze_audio: starting from t = 0, while
t is below the analyzable duration emit (t, min(t + chunk, d) - t) and
advance t by chunk - overlap.  The Python loop has no termination guard,
so the embedding carries an explicit fuel; None means the fuel ran out
with the loop still running. -/

/-- planFuel d c o fuel t runs the chunk loop from time t with the given
chunk length c and overlap o. -/
def planFuel (d c o : ℚ) : ℕ → ℚ → Option (List (ℚ × ℚ))
  | 0, t => if t < d then none else some []
  | fuel + 1, t =>
    if t < d then
      (planFuel d c o fuel (t + (c - o))).map
        (fun rest => (t, min (t + c) d - t) :: rest)
    else some []

/-- Chunk list of analyze_audio for an analyzable duration d, starting
at time 0. -/
def calcChunks (d c o : ℚ) (fuel : ℕ) : Option (List (ℚ × ℚ)) :=
  planFuel d c o fuel 0

/-- planDiverges d c o t says the chunk loop started at t never finishes,
however much fuel it is given. -/
def planDiverges (d c o t : ℚ) : Prop :=
  ∀ fuel, planFuel d c o fuel t = none

/-! ## Recognition and parsing of the AudD response -/

/-- Subset of the AudD JSON response consumed by the program: the status
field, and the result object with its five track fields (each possibly
absent). -/
structure AuddTrack where
  title : Option String
  artist : Option String
  album : Option String
  release_date : Option String
  label : Option String
  deriving DecidableEq

/-- Envelope of the AudD response: optional status and optional result. -/
structure AuddResult where
  status : Option String
  result : Option AuddTrack
  deriving DecidableEq

/-- Dict returned by recognize_with_audd when the token is unset: it has
only an error key, hence no status and no result. -/
def audd_token_error : AuddResult := ⟨none, none⟩

/-- recognize_with_audd of src/app.py: with an empty token it returns
the token-error dict without contacting the service; otherwise the
outcome of the network call (an Except.error models a requests
exception such as a timeout). -/
def recognize_with_audd (token : String) (net : Except String AuddResult) :
    Except String AuddResult :=
  if token = "" then Except.ok audd_token_error else net

/-- Identity fields of a parsed match, with the Unknown fallbacks of
parse_audd_result. -/
structure SongInfo where
  title : String
  artists : List String
  album : String
  release_date : String
  label : String
  confidence : ℕ
  deriving DecidableEq

/-- parse_audd_result of src/app.py: None unless status is success and a
result object is present; otherwise the five fields with Unknown
fallbacks and a fixed confidence of 100. -/
def parse_audd_result (r : AuddResult) : Option SongInfo :=
  if r.status = some "success" then
    match r.result with
    | some t =>
      some ⟨t.title.getD "Unknown", [t.artist.getD "Unknown"], t.album.getD "Unknown",
            t.release_date.getD "Unknown", t.label.getD "Unknown", 100⟩
    | none => none
  else none

/-! ## Detection aggregation -/

/-- Entry of a song's time_ranges list: the four keys start, end,
start_seconds, end_seconds of the Python dict. -/
structure TimeRange where
  start_fmt : String
  end_fmt : String
  start_seconds : ℚ
  end_seconds : ℚ
  deriving DecidableEq

/-- Value of the detected_songs dict: the parsed identity fields plus the
accumulated timestamps and time_ranges. -/
structure SongEntry where
  info : SongInfo
  timestamps : List ℚ
  time_ranges : List TimeRange
  deriving DecidableEq

/-- song_key of analyze_audio: the title and the artist list joined
with vertical bars. -/
def song_key (p : SongInfo) : String :=
  p.title ++ "|" ++ String.intercalate "|" p.artists

/-- Raw time_ranges entry appended for a hit at start_time of the given
chunk duration, with the end capped by the media duration. -/
def mkRawRange (duration start_time chunk_duration : ℚ) : TimeRange :=
  { start_fmt := format_timestamp start_time
    end_fmt := format_timestamp (min (start_time + chunk_duration) duration)
    start_seconds := start_time
    end_seconds := min (start_time + chunk_duration) duration }

/-- Pointwise update of the entry stored under a key of the
insertion-ordered dict, modelled as an association list. -/
def updateEntry (key : String) (f : SongEntry → SongEntry) :
    List (String × SongEntry) → List (String × SongEntry)
  | [] => []
  | (k, e) :: rest =>
    if k = key then (k, f e) :: rest else (k, e) :: updateEntry key f rest

/-- Grouping step of analyze_audio for one parsed match: create the
entry on first sight of the key (display fields from this first match),
then append the window start to timestamps and the raw range to
time_ranges. -/
def addHit (duration : ℚ) (songs : List (String × SongEntry))
    (start_time chunk_duration : ℚ) (parsed : SongInfo) :
    List (String × SongEntry) :=
  let key := song_key parsed
  let songs' :=
    if (songs.lookup key).isSome then songs
    else songs ++ [(key, ⟨parsed, [], []⟩)]
  updateEntry key
    (fun e =>
      { e with
        timestamps := e.timestamps ++ [start_time]
        time_ranges := e.time_ranges ++ [mkRawRange duration start_time chunk_duration] })
    songs'

/-- Per-chunk outcome of the external tools: the audio extraction either
raises (some message) or succeeds, and the network call either raises or
returns a response.  The loop body of analyze_audio: an exception from
either tool appends one formatted error entry; a parsed match is grouped
into detected_songs; anything else leaves the state unchanged. -/
def processChunk (token : String) (duration : ℚ)
    (state : List (String × SongEntry) × List String)
    (i : ℕ) (chunk : ℚ × ℚ)
    (extractExc : Option String) (net : Except String AuddResult) :
    List (String × SongEntry) × List String :=
  let (songs, errors) := state
  let tag := fun (msg : String) =>
    "Chunk " ++ toString i ++ " (" ++ format_timestamp chunk.1 ++ "): " ++ msg
  match extractExc with
  | some msg => (songs, errors ++ [tag msg])
  | none =>
    match recognize_with_audd token net with
    | Except.error msg => (songs, errors ++ [tag msg])
    | Except.ok result =>
      match parse_audd_result result with
      | none => (songs, errors)
      | some parsed => (addHit duration songs chunk.1 chunk.2 parsed, errors)

/-! ## Per-track range merging -/

/-- Loop body of the range merge, on the reversed accumulator (the open
range at the head): a hit starting at most gap seconds after the open
range's end extends that end to the max of the two ends and reformats
it; otherwise the hit opens a new range. -/
def mergeStep (gap : ℚ) (racc : List TimeRange) (r : TimeRange) : List TimeRange :=
  match racc with
  | [] => [r]
  | lastR :: rest =>
    if r.start_seconds ≤ lastR.end_seconds + gap then
      let newEnd := max lastR.end_seconds r.end_seconds
      { lastR with end_seconds := newEnd, end_fmt := format_timestamp newEnd } :: rest
    else r :: lastR :: rest

/-- Merge pass of analyze_audio over an already sorted list of raw
ranges. -/
def merge_ranges (gap : ℚ) (ranges : List TimeRange) : List TimeRange :=
  (ranges.foldl (mergeStep gap) []).reverse

/-- Python sorted(ranges, key start_seconds): a stable ascending sort. -/
def sortRanges (ranges : List TimeRange) : List TimeRange :=
  ranges.mergeSort (fun a b => a.start_seconds ≤ b.start_seconds)

/-- Per-song finalization: sort the raw ranges by start and merge them
with the gap tolerance. -/
def finalizeSong (gap : ℚ) (e : SongEntry) : SongEntry :=
  { e with time_ranges := merge_ranges gap (sortRanges e.time_ranges) }

/-- Sort key of the final songs ordering: the start of the first merged
range, or 0 for an empty range list. -/
def sortKey (e : SongEntry) : ℚ :=
  match e.time_ranges with
  | [] => 0
  | r :: _ => r.start_seconds

/-- Final ordering of the songs list: Python list.sort with the
first-range-start key, a stable ascending sort. -/
def sortSongs (songs : List SongEntry) : List SongEntry :=
  songs.mergeSort (fun a b => sortKey a ≤ sortKey b)

/-! ## The analyze_audio pipeline -/

/-- Results dict of analyze_audio (the fields the pipeline fills in). -/
structure ScanResults where
  songs : List SongEntry
  analysis_chunks : ℕ
  errors : List String
  scan_mode : String
  deriving DecidableEq

/-- Grouping loop of analyze_audio over the enumerated chunk list. -/
def runChunks (token : String) (duration : ℚ)
    (extractOracle : ℕ → Option String) (netOracle : ℕ → Except String AuddResult) :
    List (ℕ × (ℚ × ℚ)) → List (String × SongEntry) × List String → List (String × SongEntry) × List String
  | [], state => state
  | (i, chunk) :: rest, state =>
    runChunks token duration extractOracle netOracle rest
      (processChunk token duration state i chunk (extractOracle i) (netOracle i))

/-- Truthiness test of the max_duration limit: Python takes the branch
when max_duration is present, nonzero and below the duration. -/
def limitedScan (duration : ℚ) (max_duration : Option ℚ) : Bool :=
  match max_duration with
  | some m => decide (m ≠ 0 ∧ m < duration)
  | none => false

/-- Analyzable duration after applying the max_duration limit. -/
def analyzeDurationOf (duration : ℚ) (max_duration : Option ℚ) : ℚ :=
  if limitedScan duration max_duration then max_duration.getD duration else duration

/-- scan_mode string of the results dict. -/
def scanModeOf (duration : ℚ) (max_duration : Option ℚ) : String :=
  if limitedScan duration max_duration then
    "First " ++ format_timestamp (max_duration.getD duration)
  else "Full video"

/-- analyze_audio of src/app.py, with the probed duration and the two
external tools as parameters.  None propagates fuel exhaustion of the
unguarded planner loop. -/
def analyze_audio (token : String) (duration : ℚ) (max_duration : Option ℚ)
    (extractOracle : ℕ → Option String) (netOracle : ℕ → Except String AuddResult)
    (fuel : ℕ) : Option ScanResults :=
  match calcChunks (analyzeDurationOf duration max_duration) CHUNK_DURATION OVERLAP fuel with
  | none => none
  | some chunks =>
    some ⟨sortSongs
            ((runChunks token duration extractOracle netOracle chunks.enum ([], [])).1.map
              (fun ke => finalizeSong MERGE_GAP ke.2)),
          chunks.length,
          (runChunks token duration extractOracle netOracle chunks.enum ([], [])).2,
          scanModeOf duration max_duration⟩

/-! ## Clip route validation -/

/-- Outcome of the timestamp validation part of the clip route (lines
355 to 377 of src/app.py), one constructor per distinct 400 response
plus ok for the request that goes on to produce a clip. -/
inductive ClipOutcome where
  | parseFailure
  | startNotBeforeEnd
  | negativeStart
  | endExceedsDuration (msg : String)
  | ok (startSec endSec : ℚ)
  deriving DecidableEq

/-- Validation sequence of the clip route: parse both timestamps (a
ValueError is a 400), reject start at or after end, reject negative
start, then against the probed duration reject an end beyond it with a
message naming the requested end and the formatted duration. -/
def clipValidate (start_ts end_ts : String) (duration : ℚ) : ClipOutcome :=
  match parse_timestamp start_ts, parse_timestamp end_ts with
  | some s, some e =>
    if s ≥ e then ClipOutcome.startNotBeforeEnd
    else if s < 0 then ClipOutcome.negativeStart
    else if e > duration then
      ClipOutcome.endExceedsDuration
        ("End time (" ++ end_ts ++ ") exceeds video duration (" ++
          format_timestamp duration ++ ")")
    else ClipOutcome.ok s e
  | _, _ => ClipOutcome.parseFailure

/-- Well-formedness of a time_ranges entry as the pipeline produces it:
the range is nonempty and the two display strings match the numeric
fields. -/
def wfRange (r : TimeRange) : Prop :=
  r.start_seconds < r.end_seconds ∧
  r.start_fmt = format_timestamp r.start_seconds ∧
  r.end_fmt = format_timestamp r.end_seconds

instance (r : TimeRange) : Decidable (wfRange r) := by
  unfold wfRange
  infer_instance

/-- Separation of two merged ranges: the second starts strictly after
the first ends plus the gap tolerance. -/
def gapSeparated (gap : ℚ) (a b : TimeRange) : Prop :=
  a.end_seconds + gap < b.start_seconds

/-- Detection entry with a single merged range starting at s, used in
the ordering examples. -/
def songAt (t : String) (s : ℚ) : SongEntry :=
  ⟨⟨t, ["x"], "a", "r", "l", 100⟩, [s], [⟨"", "", s, s + 12⟩]⟩

/-- Detection entry with no ranges at all (the defensive sentinel
case). -/
def songNoRanges : SongEntry := ⟨⟨"empty", ["x"], "a", "r", "l", 100⟩, [], []⟩

/-! ## Lemmas about the window planner -/

/-- Leaving the loop: once t has reached the duration the loop stops at
once, for any fuel. -/
theorem planFuel_stop (d c o t : ℚ) (h : ¬ t < d) (fuel : ℕ) :
    planFuel d c o fuel t = some [] := by
  cases fuel <;> simp [planFuel, h]

/-- Out of fuel inside the loop. -/
theorem planFuel_zero (d c o t : ℚ) (h : t < d) : planFuel d c o 0 t = none := by
  simp [planFuel, h]

/-- One iteration of the loop. -/
theorem planFuel_step (d c o t : ℚ) (fuel : ℕ) (h : t < d) :
    planFuel d c o (fuel + 1) t =
      (planFuel d c o fuel (t + (c - o))).map
        (fun rest => (t, min (t + c) d - t) :: rest) := by
  simp [planFuel, h]

/-- Adding fuel cannot change an answer the loop already produced. -/
theorem planFuel_mono (d c o : ℚ) :
    ∀ (fuel : ℕ) (t : ℚ) (xs : List (ℚ × ℚ)),
      planFuel d c o fuel t = some xs → planFuel d c o (fuel + 1) t = some xs := by
  intro fuel
  induction fuel with
  | zero =>
    intro t xs h
    by_cases ht : t < d
    · rw [planFuel_zero d c o t ht] at h
      exact absurd h (by simp)
    · rw [planFuel_stop d c o t ht] at h ⊢
      exact h
  | succ n ih =>
    intro t xs h
    by_cases ht : t < d
    · rw [planFuel_step d c o t n ht] at h
      rw [planFuel_step d c o t (n + 1) ht]
      cases hrec : planFuel d c o n (t + (c - o)) with
      | none => rw [hrec] at h; exact absurd h (by simp)
      | some ys => rw [hrec] at h; rw [ih _ _ hrec]; exact h
    · rw [planFuel_stop d c o t ht] at h ⊢
      exact h

/-- Monotonicity in the fuel, general form. -/
theorem planFuel_mono_le (d c o : ℚ) (f f' : ℕ) (t : ℚ) (xs : List (ℚ × ℚ))
    (hle : f ≤ f') (h : planFuel d c o f t = some xs) :
    planFuel d c o f' t = some xs := by
  induction f' with
  | zero =>
    have hf : f = 0 := by omega
    subst hf
    exact h
  | succ n ih =>
    rcases Nat.lt_or_ge n f with hlt | hge
    · have hf : f = n + 1 := by omega
      subst hf
      exact h
    · exact planFuel_mono d c o n t xs (ih hge)

/-- With the stride nonpositive the loop never leaves a time below the
duration, so it consumes any amount of fuel. -/
theorem plan_diverges_of_le (d c o t : ℚ) (hco : c ≤ o) (ht : t < d) :
    planDiverges d c o t := by
  intro fuel
  induction fuel generalizing t with
  | zero => exact planFuel_zero d c o t ht
  | succ n ih =>
    rw [planFuel_step d c o t n ht, ih (t + (c - o)) (by linarith)]
    rfl

/-- With a positive stride the loop always terminates on enough fuel. -/
theorem plan_terminates_of_lt (d c o t : ℚ) (hco : o < c) :
    ∃ fuel, (planFuel d c o fuel t).isSome = true := by
  have hne : c - o ≠ 0 := by linarith
  suffices key : ∀ n : ℕ, ∀ t : ℚ, (⌈(d - t) / (c - o)⌉).toNat ≤ n →
      ∃ fuel, (planFuel d c o fuel t).isSome = true from key _ t le_rfl
  intro n
  induction n with
  | zero =>
    intro t hn
    by_cases ht : t < d
    · exfalso
      have hpos : 0 < ⌈(d - t) / (c - o)⌉ :=
        Int.ceil_pos.mpr (div_pos (by linarith) (by linarith))
      omega
    · exact ⟨0, by rw [planFuel_stop d c o t ht]; rfl⟩
  | succ n ih =>
    intro t hn
    by_cases ht : t < d
    · have hrw : (d - (t + (c - o))) / (c - o) = (d - t) / (c - o) - 1 := by
        rw [show d - (t + (c - o)) = (d - t) - (c - o) by ring, sub_div, div_self hne]
      have hpos : 0 < ⌈(d - t) / (c - o)⌉ :=
        Int.ceil_pos.mpr (div_pos (by linarith) (by linarith))
      have hm : (⌈(d - (t + (c - o))) / (c - o)⌉).toNat ≤ n := by
        rw [hrw, Int.ceil_sub_one]
        omega
      obtain ⟨fuel, hf⟩ := ih (t + (c - o)) hm
      refine ⟨fuel + 1, ?_⟩
      rw [planFuel_step d c o t fuel ht]
      simpa using hf
    · exact ⟨0, by rw [planFuel_stop d c o t ht]; rfl⟩

/-- C3: the window planner, starting at t = 0 and while t is below the
total duration emitting (t, min(t + chunk, total) - t) and advancing by
chunk - overlap, yields for total 30, chunk 12, overlap 4 exactly the
windows (0,12), (8,12), (16,12), (24,6), the last clamped to the total
duration (for any fuel at least the four iterations needed). -/
theorem window_planner_example (fuel : ℕ) (h : 4 ≤ fuel) :
    calcChunks 30 12 4 fuel = some [(0, 12), (8, 12), (16, 12), (24, 6)] :=
  planFuel_mono_le 30 12 4 4 fuel 0 _ h (by decide)

/-- Witness for window_planner_example at the minimal fuel. -/
theorem window_planner_example_witness :
    calcChunks 30 12 4 4 = some [(0, 12), (8, 12), (16, 12), (24, 6)] :=
  window_planner_example 4 (le_refl 4)

/-- C4 (amended): the chunk loop has no InvalidConfig guard at all.
With chunk_length at most overlap and the start time still below the
duration it simply never terminates, however much fuel it is given;
with chunk_length greater than overlap it terminates on enough fuel
from any start time. -/
theorem window_planner_termination :
    (∀ d c o t : ℚ, c ≤ o → t < d → planDiverges d c o t) ∧
    (∀ d c o t : ℚ, o < c → ∃ fuel, (planFuel d c o fuel t).isSome = true) :=
  ⟨fun d c o t hco ht => plan_diverges_of_le d c o t hco ht,
   fun d c o t hco => plan_terminates_of_lt d c o t hco⟩

/-- Witness for window_planner_termination: a diverging configuration
with chunk equal to overlap, and the shipped 12/4 configuration
terminating. -/
theorem window_planner_termination_witness :
    planDiverges 2 3 3 0 ∧ ∃ fuel, (planFuel 30 12 4 fuel 0).isSome = true :=
  ⟨window_planner_termination.1 2 3 3 0 (by norm_num) (by norm_num),
   window_planner_termination.2 30 12 4 0 (by norm_num)⟩

/-- Counterexample to C4 as stated: with chunk_length 4 equal to the
overlap 4 and duration 1 the planner does not fail with any error, it
loops forever: no amount of fuel makes the loop return. -/
theorem window_planner_no_guard_counterexample : planDiverges 1 4 4 0 :=
  plan_diverges_of_le 1 4 4 0 (le_refl 4) (by norm_num)

/-! ## Lemmas about the range merge -/

/-- Pointwise strengthening of a chain using a property of the
elements. -/
theorem chain'_imp_mem {α : Type} {R S : α → α → Prop} {P : α → Prop} :
    ∀ (l : List α), l.Chain' R → (∀ x ∈ l, P x) →
      (∀ a b, P a → P b → R a b → S a b) → l.Chain' S
  | [], _, _, _ => List.chain'_nil
  | [a], _, _, _ => List.chain'_singleton a
  | a :: b :: t, h, hp, himp => by
    rw [List.chain'_cons] at h ⊢
    refine ⟨himp a b (hp a (by simp)) (hp b (by simp)) h.1, ?_⟩
    exact chain'_imp_mem (b :: t) h.2 (fun x hx => hp x (List.mem_cons_of_mem a hx)) himp

/-- One merge step keeps the reversed accumulator gap-separated and
well formed. -/
theorem mergeStep_inv (gap : ℚ) (racc : List TimeRange) (r : TimeRange)
    (hr : wfRange r)
    (hchain : racc.Chain' (fun a b => gapSeparated gap b a))
    (hwf : ∀ x ∈ racc, wfRange x) :
    (mergeStep gap racc r).Chain' (fun a b => gapSeparated gap b a) ∧
      ∀ x ∈ mergeStep gap racc r, wfRange x := by
  cases racc with
  | nil =>
    refine ⟨List.chain'_singleton r, ?_⟩
    intro x hx
    simp only [mergeStep, List.mem_singleton] at hx
    exact hx ▸ hr
  | cons lastR rest =>
    by_cases h : r.start_seconds ≤ lastR.end_seconds + gap
    · simp only [mergeStep, if_pos h]
      have hlast : wfRange lastR := hwf lastR (by simp)
      constructor
      · cases rest with
        | nil => exact List.chain'_singleton _
        | cons b rest' =>
          rw [List.chain'_cons] at hchain ⊢
          exact ⟨hchain.1, hchain.2⟩
      · intro x hx
        rcases List.mem_cons.mp hx with hx | hx
        · subst hx
          refine ⟨lt_of_lt_of_le hlast.1 (le_max_left _ _), hlast.2.1, rfl⟩
        · exact hwf x (List.mem_cons_of_mem lastR hx)
    · simp only [mergeStep, if_neg h]
      constructor
      · rw [List.chain'_cons]
        exact ⟨not_le.mp h, hchain⟩
      · intro x hx
        rcases List.mem_cons.mp hx with hx | hx
        · exact hx ▸ hr
        · exact hwf x hx

/-- The merge fold keeps the accumulator invariant. -/
theorem merge_foldl_inv (gap : ℚ) :
    ∀ (ranges racc : List TimeRange),
      (∀ x ∈ ranges, wfRange x) →
      racc.Chain' (fun a b => gapSeparated gap b a) →
      (∀ x ∈ racc, wfRange x) →
      (ranges.foldl (mergeStep gap) racc).Chain' (fun a b => gapSeparated gap b a) ∧
        ∀ x ∈ ranges.foldl (mergeStep gap) racc, wfRange x
  | [], racc, _, hchain, hwf => ⟨hchain, hwf⟩
  | r :: rest, racc, hranges, hchain, hwf => by
    obtain ⟨hchain', hwf'⟩ :=
      mergeStep_inv gap racc r (hranges r (by simp)) hchain hwf
    exact merge_foldl_inv gap rest (mergeStep gap racc r)
      (fun x hx => hranges x (List.mem_cons_of_mem r hx)) hchain' hwf'

/-- C9: the final merged time_ranges list of every track is sorted
ascending by start_seconds, every range has start_seconds strictly below
end_seconds, consecutive ranges are separated by more than the merge
gap (no two output ranges could still be merged), and the formatted
start and end strings agree with the numeric fields, provided the raw
hit ranges going into the merge are well formed. -/
theorem merged_ranges_invariant (gap : ℚ) (hgap : 0 ≤ gap) (ranges : List TimeRange)
    (hwf : ∀ r ∈ ranges, wfRange r) :
    (merge_ranges gap (sortRanges ranges)).Chain'
        (fun a b => a.start_seconds < b.start_seconds) ∧
      (∀ r ∈ merge_ranges gap (sortRanges ranges),
          r.start_seconds < r.end_seconds ∧
          r.start_fmt = format_timestamp r.start_seconds ∧
          r.end_fmt = format_timestamp r.end_seconds) ∧
      (merge_ranges gap (sortRanges ranges)).Chain'
        (fun a b => a.end_seconds + gap < b.start_seconds) := by
  have hwf' : ∀ r ∈ sortRanges ranges, wfRange r := fun r hr =>
    hwf r ((List.mergeSort_perm ranges _).mem_iff.mp hr)
  obtain ⟨hchain, hmem⟩ :=
    merge_foldl_inv gap (sortRanges ranges) [] hwf' List.chain'_nil (by simp)
  have hmem' : ∀ r ∈ merge_ranges gap (sortRanges ranges), wfRange r := by
    intro r hr
    rw [merge_ranges, List.mem_reverse] at hr
    exact hmem r hr
  have hgapchain :
      (merge_ranges gap (sortRanges ranges)).Chain' (gapSeparated gap) := by
    rw [merge_ranges, List.chain'_reverse]
    exact hchain
  refine ⟨?_, hmem', hgapchain⟩
  refine chain'_imp_mem _ hgapchain hmem' ?_
  intro a b ha _ hab
  have := ha.1
  unfold gapSeparated at hab
  linarith

/-- Witness for merged_ranges_invariant on two concrete raw hits. -/
theorem merged_ranges_invariant_witness :
    (merge_ranges 30 (sortRanges [mkRawRange 200 100 12, mkRawRange 200 0 12])).Chain'
        (fun a b => a.start_seconds < b.start_seconds) ∧
      (∀ r ∈ merge_ranges 30 (sortRanges [mkRawRange 200 100 12, mkRawRange 200 0 12]),
          r.start_seconds < r.end_seconds ∧
          r.start_fmt = format_timestamp r.start_seconds ∧
          r.end_fmt = format_timestamp r.end_seconds) ∧
      (merge_ranges 30 (sortRanges [mkRawRange 200 100 12, mkRawRange 200 0 12])).Chain'
        (fun a b => a.end_seconds + 30 < b.start_seconds) :=
  merged_ranges_invariant 30 (by norm_num)
    [mkRawRange 200 100 12, mkRawRange 200 0 12] (by decide)

/-- C1: the merge of a track's raw hits follows the gap-tolerance rule:
a hit starting at most merge_gap after the open range's end extends that
end to the max of the two ends (so it never shrinks), any other hit
opens a new range; and on the concrete hits with window starts 0, 8, 16
(chunk 12) plus a hit at 100..112, gap tolerance 30, the first three
merge into the single range 0..28 while 100..112 stays separate because
100 exceeds 28 + 30. -/
theorem merge_gap_rule :
    (∀ (gap : ℚ) (lastR : TimeRange) (rest : List TimeRange) (r : TimeRange),
        r.start_seconds ≤ lastR.end_seconds + gap →
        mergeStep gap (lastR :: rest) r =
          { lastR with
              end_seconds := max lastR.end_seconds r.end_seconds
              end_fmt := format_timestamp (max lastR.end_seconds r.end_seconds) } :: rest ∧
          lastR.end_seconds ≤ max lastR.end_seconds r.end_seconds) ∧
    (∀ (gap : ℚ) (lastR : TimeRange) (rest : List TimeRange) (r : TimeRange),
        ¬ r.start_seconds ≤ lastR.end_seconds + gap →
        mergeStep gap (lastR :: rest) r = r :: lastR :: rest) ∧
    merge_ranges 30 (sortRanges
        [mkRawRange 120 0 12, mkRawRange 120 8 12, mkRawRange 120 16 12,
         mkRawRange 120 100 12]) =
      [⟨"00:00", "00:28", 0, 28⟩, mkRawRange 120 100 12] := by
  refine ⟨?_, ?_, ?_⟩
  · intro gap lastR rest r h
    exact ⟨by simp [mergeStep, h], le_max_left _ _⟩
  · intro gap lastR rest r h
    simp [mergeStep, h]
  · have hs : sortRanges
        [mkRawRange 120 0 12, mkRawRange 120 8 12, mkRawRange 120 16 12,
         mkRawRange 120 100 12] =
        [mkRawRange 120 0 12, mkRawRange 120 8 12, mkRawRange 120 16 12,
         mkRawRange 120 100 12] := by
      unfold sortRanges
      exact List.mergeSort_of_sorted (by decide)
    rw [hs]
    decide

/-- Witness for merge_gap_rule: one extending step and one
new-range step at concrete ranges. -/
theorem merge_gap_rule_witness :
    (mergeStep 30 [(⟨"00:00", "00:12", 0, 12⟩ : TimeRange)] ⟨"00:08", "00:20", 8, 20⟩ =
        [{ (⟨"00:00", "00:12", 0, 12⟩ : TimeRange) with
            end_seconds := max (12 : ℚ) 20
            end_fmt := format_timestamp (max (12 : ℚ) 20) }] ∧
      (12 : ℚ) ≤ max (12 : ℚ) 20) ∧
    mergeStep 30 [(⟨"00:00", "00:12", 0, 12⟩ : TimeRange)] ⟨"01:40", "01:52", 100, 112⟩ =
      [⟨"01:40", "01:52", 100, 112⟩, ⟨"00:00", "00:12", 0, 12⟩] :=
  ⟨merge_gap_rule.1 30 ⟨"00:00", "00:12", 0, 12⟩ [] ⟨"00:08", "00:20", 8, 20⟩ (by decide),
   merge_gap_rule.2.1 30 ⟨"00:00", "00:12", 0, 12⟩ [] ⟨"01:40", "01:52", 100, 112⟩ (by decide)⟩

/-! ## Result ordering -/

/-- Transitivity of the Boolean sort comparison. -/
theorem sortKeyLE_trans (a b c : SongEntry)
    (hab : decide (sortKey a ≤ sortKey b) = true)
    (hbc : decide (sortKey b ≤ sortKey c) = true) :
    decide (sortKey a ≤ sortKey c) = true := by
  simp only [decide_eq_true_eq] at *
  exact le_trans hab hbc

/-- Totality of the Boolean sort comparison. -/
theorem sortKeyLE_total (a b : SongEntry) :
    (decide (sortKey a ≤ sortKey b) || decide (sortKey b ≤ sortKey a)) = true := by
  simp only [Bool.or_eq_true, decide_eq_true_eq]
  exact le_total _ _

/-- C6: the final songs list is ordered by ascending first-range start
(key 0 for a track without ranges, which therefore sorts to the front),
the sort permutes the grouped detections, ties keep the original
insertion order (every key-ordered sublist of the input survives into
the output), and on tracks with first-range starts 50, 0, 20 the output
order is 0, 20, 50. -/
theorem result_ordering :
    (∀ songs : List SongEntry,
        (sortSongs songs).Pairwise (fun a b => sortKey a ≤ sortKey b)) ∧
    (∀ songs : List SongEntry, (sortSongs songs).Perm songs) ∧
    (∀ songs c : List SongEntry, c.Pairwise (fun a b => sortKey a ≤ sortKey b) →
        c.Sublist songs → c.Sublist (sortSongs songs)) ∧
    sortKey songNoRanges = 0 ∧
    sortSongs [songAt "p" 50, songAt "q" 0, songAt "r" 20] =
      [songAt "q" 0, songAt "r" 20, songAt "p" 50] ∧
    sortSongs [songAt "p" 50, songNoRanges] = [songNoRanges, songAt "p" 50] := by
  refine ⟨?_, ?_, ?_, rfl, ?_, ?_⟩
  · intro songs
    have h := List.sorted_mergeSort sortKeyLE_trans sortKeyLE_total songs
    refine h.imp ?_
    intro a b hab
    simpa using hab
  · intro songs
    exact List.mergeSort_perm songs _
  · intro songs c hc hsub
    refine List.sublist_mergeSort sortKeyLE_trans sortKeyLE_total ?_ hsub
    exact hc.imp (fun h => by simpa using h)
  · norm_num [sortSongs, List.mergeSort, List.merge, songAt, sortKey]
  · norm_num [sortSongs, List.mergeSort, List.merge, songAt, songNoRanges, sortKey]

/-- Witness for result_ordering: a key-ordered sublist survives the
sort. -/
theorem result_ordering_witness :
    List.Sublist [songAt "p" 50] (sortSongs [songAt "p" 50, songNoRanges]) :=
  result_ordering.2.2.1 [songAt "p" 50, songNoRanges] [songAt "p" 50]
    (by decide) (by decide)

/-! ## Grouping by song key -/

/-- Lookup across an append: the left list wins. -/
theorem lookup_append (k : String) :
    ∀ l1 l2 : List (String × SongEntry),
      (l1 ++ l2).lookup k =
        match l1.lookup k with
        | some v => some v
        | none => l2.lookup k
  | [], l2 => rfl
  | (k', e) :: rest, l2 => by
    by_cases h : k = k'
    · have hb : (k == k') = true := by simp [h]
      simp [List.lookup_cons, hb]
    · have hb : (k == k') = false := by simp [h]
      simp [List.lookup_cons, hb, lookup_append k rest l2]

/-- updateEntry leaves every other key untouched. -/
theorem updateEntry_lookup_other (key : String) (f : SongEntry → SongEntry)
    (k : String) (hk : k ≠ key) :
    ∀ l : List (String × SongEntry), (updateEntry key f l).lookup k = l.lookup k
  | [] => rfl
  | (k', e) :: rest => by
    by_cases h : k' = key
    · have hb : (k == k') = false := by simp [h ▸ hk]
      rw [updateEntry, if_pos h]
      simp [List.lookup_cons, hb]
    · rw [updateEntry, if_neg h]
      simp [List.lookup_cons, updateEntry_lookup_other key f k hk rest]

/-- updateEntry maps the stored entry under its key. -/
theorem updateEntry_lookup_self (key : String) (f : SongEntry → SongEntry) :
    ∀ l : List (String × SongEntry),
      (updateEntry key f l).lookup key = (l.lookup key).map f
  | [] => rfl
  | (k', e) :: rest => by
    by_cases h : k' = key
    · have hb : (key == k') = true := by simp [h]
      rw [updateEntry, if_pos h]
      simp [List.lookup_cons, hb]
    · have hb : (key == k') = false := by simp [Ne.symm h]
      rw [updateEntry, if_neg h]
      simp [List.lookup_cons, hb, updateEntry_lookup_self key f rest]

/-- updateEntry passes over a prefix that does not hold the key. -/
theorem updateEntry_append_of_none (key : String) (f : SongEntry → SongEntry) :
    ∀ l1 l2 : List (String × SongEntry), l1.lookup key = none →
      updateEntry key f (l1 ++ l2) = l1 ++ updateEntry key f l2
  | [], l2, _ => rfl
  | (k', e) :: rest, l2, h => by
    rw [List.lookup_cons] at h
    by_cases hk : key = k'
    · have hb : (key == k') = true := by simp [hk]
      rw [hb] at h
      exact absurd h (by simp)
    · have hb : (key == k') = false := by simp [hk]
      rw [hb] at h
      rw [List.cons_append, updateEntry, if_neg (Ne.symm hk),
        updateEntry_append_of_none key f rest l2 h, List.cons_append]

/-- C2 (amended): detections are grouped by the string song_key, the
title and artist list joined with vertical bars.  Every other key's
entry is untouched by a hit; a first-seen key gets a fresh entry holding
the match's display fields; a later match with the same key leaves the
first-seen display fields intact and contributes exactly its timestamp
and raw range.  In particular identical title and artists with a
differing album stay one entry with the first-seen album.  Distinct
titles, however, merge exactly when the joined keys collide (see the
counterexample), so grouping is by key equality, not title equality. -/
theorem grouping_by_song_key :
    (∀ (d : ℚ) (songs : List (String × SongEntry)) (s c : ℚ) (p : SongInfo)
        (k : String), k ≠ song_key p →
        (addHit d songs s c p).lookup k = songs.lookup k) ∧
    (∀ (d : ℚ) (songs : List (String × SongEntry)) (s c : ℚ) (p : SongInfo),
        songs.lookup (song_key p) = none →
        (addHit d songs s c p).lookup (song_key p) =
          some ⟨p, [s], [mkRawRange d s c]⟩) ∧
    (∀ (d : ℚ) (songs : List (String × SongEntry)) (s c : ℚ) (p : SongInfo)
        (e : SongEntry), songs.lookup (song_key p) = some e →
        (addHit d songs s c p).lookup (song_key p) =
          some ⟨e.info, e.timestamps ++ [s], e.time_ranges ++ [mkRawRange d s c]⟩) ∧
    (addHit 120 (addHit 120 [] 0 12 ⟨"T", ["A"], "Album1", "R", "L", 100⟩) 8 12
        ⟨"T", ["A"], "Album2", "R", "L", 100⟩).length = 1 ∧
    (addHit 120 (addHit 120 [] 0 12 ⟨"T", ["A"], "Album1", "R", "L", 100⟩) 8 12
        ⟨"T", ["A"], "Album2", "R", "L", 100⟩).lookup
        (song_key ⟨"T", ["A"], "Album2", "R", "L", 100⟩) =
      some ⟨⟨"T", ["A"], "Album1", "R", "L", 100⟩, [0, 8],
            [mkRawRange 120 0 12, mkRawRange 120 8 12]⟩ := by
  refine ⟨?_, ?_, ?_, by decide, by decide⟩
  · intro d songs s c p k hk
    by_cases h : (songs.lookup (song_key p)).isSome
    · simp only [addHit, h, if_true]
      exact updateEntry_lookup_other (song_key p) _ k hk songs
    · simp only [addHit, h, if_false, Bool.false_eq_true]
      rw [updateEntry_lookup_other (song_key p) _ k hk, lookup_append]
      cases hs : songs.lookup k with
      | none =>
        have hb : (k == song_key p) = false := by simp [hk]
        simp [List.lookup_cons, hb]
      | some v => simp
  · intro d songs s c p h
    simp only [addHit, h, Option.isSome_none, if_false, Bool.false_eq_true]
    rw [updateEntry_append_of_none (song_key p) _ songs _ h, lookup_append, h]
    simp [updateEntry, List.lookup_cons]
  · intro d songs s c p e h
    simp only [addHit, h, Option.isSome_some, if_true]
    rw [updateEntry_lookup_self, h]
    rfl

/-- Witness for grouping_by_song_key: the three keyed statements at
concrete inputs. -/
theorem grouping_by_song_key_witness :
    (addHit 120 [] 0 12 ⟨"T", ["A"], "Album1", "R", "L", 100⟩).lookup "Other|X" =
        (([] : List (String × SongEntry)).lookup "Other|X") ∧
    (addHit 120 [] 0 12 ⟨"T", ["A"], "Album1", "R", "L", 100⟩).lookup
        (song_key ⟨"T", ["A"], "Album1", "R", "L", 100⟩) =
      some ⟨⟨"T", ["A"], "Album1", "R", "L", 100⟩, [0], [mkRawRange 120 0 12]⟩ ∧
    (addHit 120 [("T|A", ⟨⟨"T", ["A"], "Album1", "R", "L", 100⟩, [0], []⟩)] 8 12
        ⟨"T", ["A"], "Album2", "R", "L", 100⟩).lookup
        (song_key ⟨"T", ["A"], "Album2", "R", "L", 100⟩) =
      some ⟨⟨"T", ["A"], "Album1", "R", "L", 100⟩, [0, 8], [mkRawRange 120 8 12]⟩ :=
  ⟨grouping_by_song_key.1 120 [] 0 12 ⟨"T", ["A"], "Album1", "R", "L", 100⟩
      "Other|X" (by decide),
   grouping_by_song_key.2.1 120 [] 0 12 ⟨"T", ["A"], "Album1", "R", "L", 100⟩ rfl,
   grouping_by_song_key.2.2.1 120
      [("T|A", ⟨⟨"T", ["A"], "Album1", "R", "L", 100⟩, [0], []⟩)] 8 12
      ⟨"T", ["A"], "Album2", "R", "L", 100⟩
      ⟨⟨"T", ["A"], "Album1", "R", "L", 100⟩, [0], []⟩ (by decide)⟩

/-- Counterexample to C2 as stated: two matches with distinct titles
whose joined keys collide (title A|B, artist C against title A, artists
B and C) land in one single TrackDetection, which collects both
timestamps. -/
theorem grouping_title_collision_counterexample :
    (⟨"A|B", ["C"], "X", "U", "U", 100⟩ : SongInfo).title ≠
        (⟨"A", ["B", "C"], "Y", "U", "U", 100⟩ : SongInfo).title ∧
    (addHit 120 (addHit 120 [] 0 12 ⟨"A|B", ["C"], "X", "U", "U", 100⟩) 8 12
        ⟨"A", ["B", "C"], "Y", "U", "U", 100⟩).length = 1 ∧
    (addHit 120 (addHit 120 [] 0 12 ⟨"A|B", ["C"], "X", "U", "U", 100⟩) 8 12
        ⟨"A", ["B", "C"], "Y", "U", "U", 100⟩).map (fun ke => ke.2.timestamps) =
      [[0, 8]] := by
  decide

/-! ## Missing credential behaviour -/

/-- With the token empty the recognize call early-returns the
token-error dict, parse_audd_result drops it, and the whole chunk loop
leaves the state untouched (when audio extraction raises nothing). -/
theorem runChunks_empty_token (duration : ℚ) (net : ℕ → Except String AuddResult) :
    ∀ (l : List (ℕ × (ℚ × ℚ))) (state : List (String × SongEntry) × List String),
      runChunks "" duration (fun _ => none) net l state = state
  | [], _ => rfl
  | (i, chunk) :: rest, state => by
    have hp : processChunk "" duration state i chunk none (net i) = state := by
      obtain ⟨songs, errors⟩ := state
      rfl
    calc runChunks "" duration (fun _ => none) net ((i, chunk) :: rest) state
        = runChunks "" duration (fun _ => none) net rest
            (processChunk "" duration state i chunk none (net i)) := rfl
      _ = runChunks "" duration (fun _ => none) net rest state := by rw [hp]
      _ = state := runChunks_empty_token duration net rest state

/-- C7 (behaviour of the code at the failing input): with the AudD
token unset, a scan whose audio extraction raises no exception ends
with an empty songs list and a completely empty error list — the
configuration error is surfaced zero times, not once, while
recognize_with_audd is still entered for every window (each call merely
returns the token-error dict that parse_audd_result silently
discards). -/
theorem missing_token_scan (duration : ℚ) (md : Option ℚ)
    (net : ℕ → Except String AuddResult) (fuel : ℕ) (r : ScanResults)
    (h : analyze_audio "" duration md (fun _ => none) net fuel = some r) :
    r.errors = [] ∧ r.songs = [] := by
  unfold analyze_audio at h
  cases hc : calcChunks (analyzeDurationOf duration md) CHUNK_DURATION OVERLAP fuel with
  | none =>
    rw [hc] at h
    exact absurd h (by simp)
  | some chunks =>
    rw [hc] at h
    dsimp only at h
    rw [runChunks_empty_token duration net] at h
    obtain rfl : _ = r := Option.some_inj.mp h
    constructor
    · rfl
    · show sortSongs (List.map _ []) = []
      simp [sortSongs, List.mergeSort]

/-- Witness for missing_token_scan: a concrete 30-second scan with the
token unset and a service oracle that would report a match. -/
theorem missing_token_scan_witness :
    (⟨[], 4, [], "Full video"⟩ : ScanResults).errors = [] ∧
      (⟨[], 4, [], "Full video"⟩ : ScanResults).songs = [] :=
  missing_token_scan 30 none
    (fun _ => Except.ok ⟨some "success", some ⟨some "T", some "A", none, none, none⟩⟩)
    4 ⟨[], 4, [], "Full video"⟩
    (by
      unfold analyze_audio
      rw [show calcChunks (analyzeDurationOf 30 none) CHUNK_DURATION OVERLAP 4 =
          some [(0, 12), (8, 12), (16, 12), (24, 6)] by decide]
      dsimp only
      rw [runChunks_empty_token]
      simp [sortSongs, List.mergeSort, scanModeOf, limitedScan])

/-! ## Clip validation -/

/-- C8: the clip route rejects with the corresponding 400 response —
and therefore never reaches the extraction step — every request whose
parsed start is at or after its parsed end, every request with a
negative parsed start, and every request whose parsed end exceeds the
probed duration, the latter with a message naming the requested end
string and the formatted duration. -/
theorem clip_validation (s e : String) (d a b : ℚ)
    (hs : parse_timestamp s = some a) (he : parse_timestamp e = some b) :
    (a ≥ b → clipValidate s e d = ClipOutcome.startNotBeforeEnd) ∧
    (a < b → a < 0 → clipValidate s e d = ClipOutcome.negativeStart) ∧
    (a < b → 0 ≤ a → d < b →
      clipValidate s e d = ClipOutcome.endExceedsDuration
        ("End time (" ++ e ++ ") exceeds video duration (" ++
          format_timestamp d ++ ")")) := by
  refine ⟨?_, ?_, ?_⟩
  · intro hab
    simp [clipValidate, hs, he, hab]
  · intro hab hneg
    simp [clipValidate, hs, he, not_le.mpr hab, hneg]
  · intro hab hnn hd
    simp [clipValidate, hs, he, not_le.mpr hab, not_lt.mpr hnn, hd]

/-- Witness for clip_validation: start 10 at or after end 5, negative
start -1, and end 180 beyond the probed duration 100. -/
theorem clip_validation_witness :
    clipValidate "00:10" "00:05" 100 = ClipOutcome.startNotBeforeEnd ∧
    clipValidate "0:-1" "00:05" 100 = ClipOutcome.negativeStart ∧
    clipValidate "00:05" "03:00" 100 =
      ClipOutcome.endExceedsDuration
        ("End time (" ++ "03:00" ++ ") exceeds video duration (" ++
          format_timestamp 100 ++ ")") :=
  ⟨(clip_validation "00:10" "00:05" 100 10 5 (by decide) (by decide)).1 (by norm_num),
   (clip_validation "0:-1" "00:05" 100 (-1) 5 (by decide) (by decide)).2.1
     (by norm_num) (by norm_num),
   (clip_validation "00:05" "03:00" 100 5 180 (by decide) (by decide)).2.2
     (by norm_num) (by norm_num) (by norm_num)⟩

/-! ## Timestamp codec lemmas -/

theorem splitOnChar_ne_nil (sep : Char) : ∀ l : List Char, splitOnChar sep l ≠ []
  | [] => by simp [splitOnChar]
  | c :: rest => by
    by_cases h : c = sep
    · simp [splitOnChar, h]
    · cases hs : splitOnChar sep rest with
      | nil => simp [splitOnChar, h, hs]
      | cons g gs => simp [splitOnChar, h, hs]

theorem splitOnChar_of_not_mem (sep : Char) :
    ∀ l : List Char, sep ∉ l → splitOnChar sep l = [l]
  | [], _ => rfl
  | c :: rest, h => by
    have hc : ¬ c = sep := fun hh => h (by simp [hh])
    have hrest : sep ∉ rest := fun hh => h (by simp [hh])
    rw [splitOnChar.eq_def]
    simp only [hc, if_false]
    rw [splitOnChar_of_not_mem sep rest hrest]

theorem splitOnChar_append (sep : Char) :
    ∀ (a b : List Char), sep ∉ a →
      splitOnChar sep (a ++ sep :: b) = a :: splitOnChar sep b
  | [], b, _ => by
    rw [List.nil_append, splitOnChar.eq_def]
    simp
  | c :: a', b, h => by
    have hc : ¬ c = sep := fun hh => h (by simp [hh])
    have ha' : sep ∉ a' := fun hh => h (by simp [hh])
    rw [List.cons_append, splitOnChar.eq_def]
    simp only [hc, if_false]
    rw [splitOnChar_append sep a' b ha']

theorem dropWhile_of_head_false {p : Char → Bool} :
    ∀ l : List Char, (∀ c ∈ l, p c = false) → l.dropWhile p = l
  | [], _ => rfl
  | c :: rest, h => by
    rw [List.dropWhile_cons_of_neg (by simp [h c (by simp)])]

theorem pyStrip_of_clean (l : List Char) (h : ∀ c ∈ l, c.isWhitespace = false) :
    pyStrip l = l := by
  unfold pyStrip
  rw [dropWhile_of_head_false l h]
  rw [dropWhile_of_head_false l.reverse (fun c hc => h c (List.mem_reverse.mp hc))]
  exact List.reverse_reverse l

theorem isDigit_not_ws (c : Char) (h : c.isDigit = true) : c.isWhitespace = false := by
  by_contra hw
  rw [Bool.not_eq_false] at hw
  simp only [Char.isWhitespace, Bool.or_eq_true, decide_eq_true_eq] at hw
  rcases hw with ((h1 | h1) | h1) | h1 <;> (subst h1; exact absurd h (by decide))

theorem isDigit_ne_of_not_digit (c d : Char) (h : c.isDigit = true)
    (hd : d.isDigit = false) : c ≠ d := fun hh => by
  subst hh
  rw [h] at hd
  exact absurd hd (by simp)

theorem pyInt_digits (cs : List Char) (hne : cs ≠ []) (hd : cs.all Char.isDigit = true) :
    pyInt? cs = some (digitsVal cs : ℤ) := by
  match cs, hne with
  | c :: rest, _ =>
    have hc : c.isDigit = true := by
      have := List.all_eq_true.mp hd c (by simp)
      simpa using this
    have hcm : ¬ c = '-' := isDigit_ne_of_not_digit c '-' hc (by decide)
    have hcp : ¬ c = '+' := isDigit_ne_of_not_digit c '+' hc (by decide)
    rw [pyInt?.eq_def]
    simp only [hcm, hcp, if_false, hd, if_true]

theorem pyFloatCore_digits (cs : List Char) (hne : cs ≠ [])
    (hd : cs.all Char.isDigit = true) : pyFloatCore cs = some (digitsVal cs : ℚ) := by
  have hdot : '.' ∉ cs := fun hmem => by
    have := List.all_eq_true.mp hd '.' hmem
    exact absurd this (by decide)
  rw [pyFloatCore.eq_def, splitOnChar_of_not_mem '.' cs hdot]
  simp only [hne, hd, if_true, ne_eq, not_false_iff, and_self, if_pos]

theorem pyFloat_digits (cs : List Char) (hne : cs ≠ [])
    (hd : cs.all Char.isDigit = true) : pyFloat? cs = some (digitsVal cs : ℚ) := by
  match cs, hne with
  | c :: rest, _ =>
    have hc : c.isDigit = true := by
      have := List.all_eq_true.mp hd c (by simp)
      simpa using this
    have hcm : ¬ c = '-' := isDigit_ne_of_not_digit c '-' hc (by decide)
    have hcp : ¬ c = '+' := isDigit_ne_of_not_digit c '+' hc (by decide)
    rw [pyFloat?.eq_def]
    simp only [hcm, hcp, if_false]
    exact pyFloatCore_digits (c :: rest) (by simp) hd

theorem natPad2_digits : ∀ n < 100, ((natPad2 n).data.all Char.isDigit) = true := by decide

theorem natPad2_ne_nil : ∀ n < 100, (natPad2 n).data ≠ [] := by decide

theorem natPad2_val : ∀ n < 100, digitsVal (natPad2 n).data = n := by decide

theorem intPad2_natCast (n : ℕ) : intPad2 (n : ℤ) = natPad2 n := by
  unfold intPad2 natPad2
  by_cases h : n < 10
  · rw [if_pos ⟨Int.natCast_nonneg n, by exact_mod_cast h⟩, if_pos h]
    rfl
  · rw [if_neg (fun hc => h (by exact_mod_cast hc.2)), if_neg h]
    rfl

theorem floor_natCast_div (s k : ℕ) : ⌊(s : ℚ) / (k : ℚ)⌋ = ((s / k : ℕ) : ℤ) := by
  have h0 : 0 ≤ (s : ℚ) / (k : ℚ) := div_nonneg (by positivity) (by positivity)
  calc ⌊(s : ℚ) / (k : ℚ)⌋
      = ((⌊(s : ℚ) / (k : ℚ)⌋.toNat : ℕ) : ℤ) :=
        (Int.toNat_of_nonneg (Int.floor_nonneg.2 h0)).symm
    _ = ((⌊(s : ℚ) / (k : ℚ)⌋₊ : ℕ) : ℤ) := by rw [Int.floor_toNat]
    _ = ((s / k : ℕ) : ℤ) := by rw [@Nat.floor_div_eq_div ℚ _ _ s k]

theorem format_timestamp_natCast (s : ℕ) : format_timestamp (s : ℚ) = formatNat s := by
  unfold format_timestamp formatNat
  have e36 : ((3600 : ℚ)) = ((3600 : ℕ) : ℚ) := by norm_num
  have e60 : ((60 : ℚ)) = ((60 : ℕ) : ℚ) := by norm_num
  have h1 : ⌊(s : ℚ) / 3600⌋ = ((s / 3600 : ℕ) : ℤ) := by
    rw [e36]; exact floor_natCast_div s 3600
  have hmod : (s : ℚ) - 3600 * (((s / 3600 : ℕ) : ℤ) : ℚ) = ((s % 3600 : ℕ) : ℚ) := by
    have hdm := congrArg (fun n : ℕ => (n : ℚ)) (Nat.div_add_mod s 3600)
    push_cast at hdm
    rw [Int.cast_natCast]
    linarith
  have h2 : ⌊((s % 3600 : ℕ) : ℚ) / 60⌋ = ((s % 3600 / 60 : ℕ) : ℤ) := by
    rw [e60]; exact floor_natCast_div (s % 3600) 60
  have h60 : ⌊(s : ℚ) / 60⌋ = ((s / 60 : ℕ) : ℤ) := by
    rw [e60]; exact floor_natCast_div s 60
  have hmod60 : (s : ℚ) - 60 * (((s / 60 : ℕ) : ℤ) : ℚ) = ((s % 60 : ℕ) : ℚ) := by
    have hdm := congrArg (fun n : ℕ => (n : ℚ)) (Nat.div_add_mod s 60)
    push_cast at hdm
    rw [Int.cast_natCast]
    linarith
  rw [h1, hmod, h2, h60, hmod60, Int.floor_natCast]
  by_cases hh : 0 < s / 3600
  · rw [if_pos (by exact_mod_cast hh), if_pos hh]
    rw [intPad2_natCast, intPad2_natCast, intPad2_natCast]
  · rw [if_neg (fun hc => hh (by exact_mod_cast hc)), if_neg hh]
    rw [intPad2_natCast, intPad2_natCast]

theorem string_data_two (a b : List Char) :
    (String.mk a ++ ":" ++ String.mk b).data = a ++ ':' :: b := by
  simp [String.data_append]

theorem clean_two (a b : List Char)
    (hda : a.all Char.isDigit = true) (hdb : b.all Char.isDigit = true) :
    ∀ c ∈ a ++ ':' :: b, c.isWhitespace = false := by
  intro c hc
  rcases List.mem_append.mp hc with h | h
  · exact isDigit_not_ws c (by simpa using List.all_eq_true.mp hda c h)
  · rcases List.mem_cons.mp h with h | h
    · subst h; decide
    · exact isDigit_not_ws c (by simpa using List.all_eq_true.mp hdb c h)

theorem colon_not_mem (a : List Char) (hda : a.all Char.isDigit = true) :
    ':' ∉ a := fun hmem => by
  have := List.all_eq_true.mp hda ':' hmem
  exact absurd this (by decide)

theorem parse_two_digit_chunks (a b : List Char)
    (ha : a ≠ []) (hda : a.all Char.isDigit = true)
    (hb : b ≠ []) (hdb : b.all Char.isDigit = true) :
    parse_timestamp (String.mk a ++ ":" ++ String.mk b) =
      some ((digitsVal a : ℚ) * 60 + (digitsVal b : ℚ)) := by
  unfold parse_timestamp
  rw [string_data_two a b, pyStrip_of_clean _ (clean_two a b hda hdb),
    splitOnChar_append ':' a b (colon_not_mem a hda),
    splitOnChar_of_not_mem ':' b (colon_not_mem b hdb)]
  dsimp only
  rw [pyInt_digits a ha hda]
  rw [pyFloat_digits b hb hdb]
  simp

theorem string_data_three (a b c : List Char) :
    (String.mk a ++ ":" ++ String.mk b ++ ":" ++ String.mk c).data =
      a ++ ':' :: (b ++ ':' :: c) := by
  simp [String.data_append]

theorem parse_three_digit_chunks (a b c : List Char)
    (ha : a ≠ []) (hda : a.all Char.isDigit = true)
    (hb : b ≠ []) (hdb : b.all Char.isDigit = true)
    (hc : c ≠ []) (hdc : c.all Char.isDigit = true) :
    parse_timestamp (String.mk a ++ ":" ++ String.mk b ++ ":" ++ String.mk c) =
      some ((digitsVal a : ℚ) * 3600 + (digitsVal b : ℚ) * 60 + (digitsVal c : ℚ)) := by
  unfold parse_timestamp
  have hclean : ∀ x ∈ a ++ ':' :: (b ++ ':' :: c), x.isWhitespace = false := by
    intro x hx
    rcases List.mem_append.mp hx with h | h
    · exact isDigit_not_ws x (by simpa using List.all_eq_true.mp hda x h)
    · rcases List.mem_cons.mp h with h | h
      · subst h; decide
      · exact clean_two b c hdb hdc x h
  rw [string_data_three a b c, pyStrip_of_clean _ hclean,
    splitOnChar_append ':' a (b ++ ':' :: c) (colon_not_mem a hda),
    splitOnChar_append ':' b c (colon_not_mem b hdb),
    splitOnChar_of_not_mem ':' c (colon_not_mem c hdc)]
  dsimp only
  rw [pyInt_digits a ha hda, pyInt_digits b hb hdb, pyFloat_digits c hc hdc]
  simp

/-- C5: for every integer number of seconds s up to 359999, parsing the
formatted timestamp gives back exactly s: format emits zero-padded
HH:MM:SS once the hour count is positive (equivalently s at least 3600)
and zero-padded MM:SS otherwise, and parse_timestamp inverts it. -/
theorem parse_format_roundtrip (s : ℕ) (hs : s ≤ 359999) :
    parse_timestamp (format_timestamp (s : ℚ)) = some (s : ℚ) := by
  rw [format_timestamp_natCast]
  unfold formatNat
  have hm100 : s % 3600 / 60 < 100 := by omega
  have hc100 : s % 60 < 100 := by omega
  by_cases hh : 0 < s / 3600
  · have hh100 : s / 3600 < 100 := by omega
    rw [if_pos hh]
    rw [parse_three_digit_chunks (natPad2 (s / 3600)).data (natPad2 (s % 3600 / 60)).data
      (natPad2 (s % 60)).data
      (natPad2_ne_nil _ hh100) (natPad2_digits _ hh100)
      (natPad2_ne_nil _ hm100) (natPad2_digits _ hm100)
      (natPad2_ne_nil _ hc100) (natPad2_digits _ hc100)]
    rw [natPad2_val _ hh100, natPad2_val _ hm100, natPad2_val _ hc100]
    refine congrArg some ?_
    have hnat : 3600 * (s / 3600) + 60 * (s % 3600 / 60) + s % 60 = s := by omega
    have hq := congrArg (fun n : ℕ => (n : ℚ)) hnat
    push_cast at hq
    linarith
  · rw [if_neg hh]
    rw [parse_two_digit_chunks (natPad2 (s % 3600 / 60)).data (natPad2 (s % 60)).data
      (natPad2_ne_nil _ hm100) (natPad2_digits _ hm100)
      (natPad2_ne_nil _ hc100) (natPad2_digits _ hc100)]
    rw [natPad2_val _ hm100, natPad2_val _ hc100]
    refine congrArg some ?_
    have hnat : (s % 3600 / 60) * 60 + s % 60 = s := by omega
    have hq := congrArg (fun n : ℕ => (n : ℚ)) hnat
    push_cast at hq
    linarith

/-- Witness for parse_format_roundtrip at 3725 seconds. -/
theorem parse_format_roundtrip_witness :
    parse_timestamp (format_timestamp ((3725 : ℕ) : ℚ)) = some ((3725 : ℕ) : ℚ) :=
  parse_format_roundtrip 3725 (by norm_num)

/-- C10: the timestamp parser imposes no upper bound on the minutes or
seconds components: every 2-part input made of digit components parses
to minutes*60 + seconds even when a component is 60 or more, and
analogously for 3-part inputs; in particular the non-canonical string
99:99 is accepted and parses to 6039. -/
theorem parse_noncanonical :
    (∀ a b : List Char, a ≠ [] → a.all Char.isDigit = true →
        b ≠ [] → b.all Char.isDigit = true →
        parse_timestamp (String.mk a ++ ":" ++ String.mk b) =
          some ((digitsVal a : ℚ) * 60 + (digitsVal b : ℚ))) ∧
    (∀ a b c : List Char, a ≠ [] → a.all Char.isDigit = true →
        b ≠ [] → b.all Char.isDigit = true → c ≠ [] → c.all Char.isDigit = true →
        parse_timestamp (String.mk a ++ ":" ++ String.mk b ++ ":" ++ String.mk c) =
          some ((digitsVal a : ℚ) * 3600 + (digitsVal b : ℚ) * 60 + (digitsVal c : ℚ))) ∧
    parse_timestamp "99:99" = some 6039 :=
  ⟨fun a b ha hda hb hdb => parse_two_digit_chunks a b ha hda hb hdb,
   fun a b c ha hda hb hdb hc hdc => parse_three_digit_chunks a b c ha hda hb hdb hc hdc,
   by decide⟩

/-- Witness for parse_noncanonical on the out-of-range components 70
and 99. -/
theorem parse_noncanonical_witness :
    parse_timestamp (String.mk ['7', '0'] ++ ":" ++ String.mk ['9', '9']) =
      some ((digitsVal ['7', '0'] : ℚ) * 60 + (digitsVal ['9', '9'] : ℚ)) :=
  parse_noncanonical.1 ['7', '0'] ['9', '9'] (by decide) (by decide) (by decide) (by decide)

end ClipIt
